import Mathlib

/-!
Verification of the document-root parser of rust-raml-parser.

The embedding follows src/parser.rs (the repository's current parser module),
together with src/error_definitions.rs and src/token_type_definitions.rs.

Modelling decisions:
* The external yaml tokenizer (yaml_rust Scanner) is a black box; a parse run
  is modelled over the finite list of tokens the scanner can still yield.
  ForwardCursor::next_token is `self.scanner.next().unwrap()`, so pulling a
  token when the scanner has none (stream exhausted, or the scanner stopped
  with a lexical scan error) panics.  Panics (Option::unwrap on None) are
  modelled by the distinguished outcome `PResult.fatal`.
* Token payloads the parser never inspects (scalar style, anchor names,
  directive numbers, ...) are dropped; a Scalar keeps its string payload.
* Rust HashMap values are modelled as association lists whose `insertEntry`
  replaces the value bound to an existing key (HashMap::insert semantics);
  iteration enumerates the list.
* Rust String::to_lowercase, str::trim, str::lines().next() and
  str::starts_with are modelled on the character list of the string
  (ASCII case folding via Char.toLower).
-/

/-- Source position attached to every token (yaml_rust Marker). -/
structure Marker where
  index : Nat
  line : Nat
  col : Nat
deriving DecidableEq, Repr

/-- The tokenizer's token kinds, with only the payload the parser reads. -/
inductive TokenType where
  | noToken
  | streamStart
  | streamEnd
  | versionDirective
  | tagDirective
  | documentStart
  | documentEnd
  | blockSequenceStart
  | blockMappingStart
  | blockEnd
  | flowSequenceStart
  | flowSequenceEnd
  | flowMappingStart
  | flowMappingEnd
  | blockEntry
  | flowEntry
  | key
  | value
  | alias
  | anchor
  | tag
  | scalar (s : String)
deriving DecidableEq, Repr

/-- The parser-owned token kind taxonomy (token_type_definitions.rs). -/
inductive TokenTypeDef where
  | noToken
  | streamStart
  | streamEnd
  | versionDirective
  | tagDirective
  | documentStart
  | documentEnd
  | blockSequenceStart
  | blockMappingStart
  | blockEnd
  | flowSequenceStart
  | flowSequenceEnd
  | flowMappingStart
  | flowMappingEnd
  | blockEntry
  | flowEntry
  | key
  | value
  | alias
  | anchor
  | tag
  | scalar
deriving DecidableEq, Repr

/-- get_token_def of token_type_definitions.rs: total map from native tokens
to taxonomy kinds. -/
def get_token_def : TokenType → TokenTypeDef
  | .noToken => .noToken
  | .streamStart => .streamStart
  | .streamEnd => .streamEnd
  | .versionDirective => .versionDirective
  | .tagDirective => .tagDirective
  | .documentStart => .documentStart
  | .documentEnd => .documentEnd
  | .blockSequenceStart => .blockSequenceStart
  | .blockMappingStart => .blockMappingStart
  | .blockEnd => .blockEnd
  | .flowSequenceStart => .flowSequenceStart
  | .flowSequenceEnd => .flowSequenceEnd
  | .flowMappingStart => .flowMappingStart
  | .flowMappingEnd => .flowMappingEnd
  | .blockEntry => .blockEntry
  | .flowEntry => .flowEntry
  | .key => .key
  | .value => .value
  | .alias => .alias
  | .anchor => .anchor
  | .tag => .tag
  | .scalar _ => .scalar

/-- HierarchyLevel of error_definitions.rs. -/
inductive HierarchyLevel where
  | documentRoot
  | documentation
  | securityScheme
deriving DecidableEq, Repr

/-- ErrorDef of error_definitions.rs (the closed set of error causes). -/
inductive ErrorDef where
  | unexpectedKeyRoot (field : String) (level : HierarchyLevel)
  | unexpectedEntry (expected : TokenTypeDef) (found : TokenTypeDef)
  | unexpectedEntryMulti (expected : List TokenTypeDef) (found : TokenTypeDef)
  | missingRamlVersion
  | missingField (field : String) (level : HierarchyLevel)
  | unexpectedProtocol
  | missingProtocols
  | invalidSecuritySchemeType
deriving DecidableEq, Repr

/-- A RamlError: in the source this is the rendered message string; the
rendering of (cause, optional marker) is injective, so the error is kept in
structured form. -/
structure RamlError where
  cause : ErrorDef
  marker : Option Marker
deriving DecidableEq, Repr

/-- get_error of error_definitions.rs. -/
def get_error (e : ErrorDef) (m : Option Marker) : RamlError := ⟨e, m⟩

/-- Protocol enumeration of parser.rs. -/
inductive Protocol where
  | http
  | https
deriving DecidableEq, Repr

/-- RamlDocumentation of parser.rs. -/
structure RamlDocumentation where
  title : String
  content : String
deriving DecidableEq, Repr

/-- SecuritySchemeType of parser.rs. -/
inductive SecuritySchemeType where
  | oAuth1
  | oAuth2
  | basicAuthentication
  | digestAuthentication
  | passThrough
  | xOther (s : String)
deriving DecidableEq, Repr

/-- SecurityScheme of parser.rs (current revision: only the type field). -/
structure SecurityScheme where
  security_type : SecuritySchemeType
deriving DecidableEq, Repr

/-- The document model (struct Raml of parser.rs). -/
structure Raml where
  title : String
  version : Option String
  description : Option String
  base_uri : Option String
  protocols : Option (List Protocol)
  media_types : Option (List String)
  documentation : Option (List RamlDocumentation)
  security_schemes : Option (List (String × SecurityScheme))
deriving DecidableEq, Repr

/-- FlowSequenceEntry of parser.rs: scalar value plus its token marker. -/
structure FlowSequenceEntry where
  value : String
  marker : Marker
deriving DecidableEq, Repr

/-- BlockSequenceEntry of parser.rs: mapping value plus the Key token marker. -/
structure BlockSequenceEntry where
  value : String
  marker : Marker
deriving DecidableEq, Repr

/-- A token as pulled from the cursor: marker plus kind. -/
abbrev Tok := Marker × TokenType

/-- Model of HashMap<String, _> contents: association list, where insert
replaces the value bound to an existing key (HashMap::insert). -/
def insertEntry {α : Type} : List (String × α) → String → α → List (String × α)
  | [], k, v => [(k, v)]
  | (k0, v0) :: rest, k, v =>
    if k0 = k then (k, v) :: rest else (k0, v0) :: insertEntry rest k v

/-- BlockSequenceEntries of parser.rs (HashMap<String, BlockSequenceEntry>). -/
abbrev BlockSequenceEntries := List (String × BlockSequenceEntry)

/-- Outcome of a parser step: Ok value, typed RamlError, or a Rust panic
(Option::unwrap on None) modelled as fatal. -/
inductive PResult (α : Type) where
  | ok (a : α)
  | err (e : RamlError)
  | fatal
deriving DecidableEq, Repr

/-- Sequencing that propagates errors and panics (Rust ? operator / abort). -/
def PResult.bind {α β : Type} : PResult α → (α → PResult β) → PResult β
  | .ok a, f => f a
  | .err e, _ => .err e
  | .fatal, _ => .fatal

/-- Rust String::to_lowercase, modelled as ASCII case folding. -/
def to_lowercase (s : String) : String := ⟨s.data.map Char.toLower⟩

/-- Rust str::starts_with on strings. -/
def starts_with (s p : String) : Bool := p.data.isPrefixOf s.data

/-- ForwardCursor::next_token: scanner.next().unwrap() — panics when the
scanner yields nothing (exhausted or stopped on a lexical scan error). -/
def next_token : List Tok → PResult (Tok × List Tok)
  | [] => .fatal
  | t :: ts => .ok (t, ts)

/-- ForwardCursor::expect. -/
def expect (expected : TokenTypeDef) : List Tok → PResult (List Tok)
  | [] => .fatal
  | (m, tt) :: rest =>
    if get_token_def tt = expected then .ok rest
    else .err (get_error (.unexpectedEntry expected (get_token_def tt)) (some m))

/-- get_scalar_value of parser.rs. -/
def get_scalar_value : List Tok → PResult (String × List Tok)
  | [] => .fatal
  | (m, tt) :: rest =>
    match tt with
    | .scalar v => .ok (v, rest)
    | _ => .err (get_error (.unexpectedEntry .scalar (get_token_def tt)) (some m))

/-- get_flow_sequence of parser.rs: scalars collected in order, FlowEntry
separators skipped, FlowSequenceEnd terminates. -/
def get_flow_sequence : List Tok → PResult (List FlowSequenceEntry × List Tok)
  | [] => .fatal
  | (m, tt) :: rest =>
    match tt with
    | .scalar s =>
      (get_flow_sequence rest).bind fun (vs, r) => .ok (⟨s, m⟩ :: vs, r)
    | .flowEntry => get_flow_sequence rest
    | .flowSequenceEnd => .ok ([], rest)
    | _ =>
      .err (get_error
        (.unexpectedEntryMulti [.flowEntry, .flowSequenceEnd] (get_token_def tt))
        (some m))

/-- get_multiple_values of parser.rs. -/
def get_multiple_values (ts : List Tok) : PResult (List FlowSequenceEntry × List Tok) :=
  (expect .value ts).bind fun ts1 =>
  (expect .flowSequenceStart ts1).bind fun ts2 =>
  get_flow_sequence ts2

/-- get_single_value of parser.rs. -/
def get_single_value (ts : List Tok) : PResult (String × List Tok) :=
  (expect .value ts).bind fun ts1 => get_scalar_value ts1

/-- get_key_value of parser.rs. -/
def get_key_value (ts : List Tok) : PResult ((String × String) × List Tok) :=
  (get_scalar_value ts).bind fun (k, ts1) =>
  (expect .value ts1).bind fun ts2 =>
  (get_scalar_value ts2).bind fun (v, ts3) => .ok ((k, v), ts3)

/-- get_single_or_multiple_values of parser.rs. -/
def get_single_or_multiple_values (ts : List Tok) :
    PResult (List FlowSequenceEntry × List Tok) :=
  (expect .value ts).bind fun ts1 =>
  match ts1 with
  | [] => .fatal
  | (m, tt) :: rest =>
    match tt with
    | .scalar v => .ok ([⟨v, m⟩], rest)
    | .flowSequenceStart => get_flow_sequence rest
    | _ =>
      .err (get_error
        (.unexpectedEntryMulti [.scalar, .flowSequenceStart] (get_token_def tt))
        (some m))

theorem bind_ok {α β : Type} {x : PResult α} {f : α → PResult β} {b : β}
    (h : x.bind f = .ok b) : ∃ a, x = .ok a ∧ f a = .ok b := by
  cases x with
  | ok a => exact ⟨a, rfl, h⟩
  | err e => simp [PResult.bind] at h
  | fatal => simp [PResult.bind] at h

theorem expect_suffix {e : TokenTypeDef} {ts r : List Tok}
    (h : expect e ts = .ok r) : r <:+ ts := by
  cases ts with
  | nil => simp [expect] at h
  | cons t rest =>
    obtain ⟨m, tt⟩ := t
    simp only [expect] at h
    split at h
    · cases h
      exact List.suffix_cons _ _
    · cases h

theorem get_scalar_value_suffix {ts : List Tok} {v : String} {r : List Tok}
    (h : get_scalar_value ts = .ok (v, r)) : r <:+ ts := by
  cases ts with
  | nil => simp [get_scalar_value] at h
  | cons t rest =>
    obtain ⟨m, tt⟩ := t
    cases tt <;> simp [get_scalar_value] at h
    obtain ⟨-, rfl⟩ := h.2
    exact List.suffix_cons _ _

theorem get_flow_sequence_suffix :
    ∀ {ts : List Tok} {vs : List FlowSequenceEntry} {r : List Tok},
      get_flow_sequence ts = .ok (vs, r) → r <:+ ts := by
  intro ts
  induction ts with
  | nil => intro vs r h; simp [get_flow_sequence] at h
  | cons t rest ih =>
    intro vs r h
    obtain ⟨m, tt⟩ := t
    cases tt <;> simp [get_flow_sequence] at h
    case scalar s =>
      obtain ⟨⟨vs', r'⟩, h1, h2⟩ := bind_ok h
      simp [PResult.ok.injEq] at h2
      obtain ⟨-, rfl⟩ := h2
      exact (ih h1).trans (List.suffix_cons _ _)
    case flowEntry =>
      exact (ih h).trans (List.suffix_cons _ _)
    case flowSequenceEnd =>
      obtain ⟨-, rfl⟩ := h
      exact List.suffix_cons _ _

theorem get_single_value_suffix {ts : List Tok} {v : String} {r : List Tok}
    (h : get_single_value ts = .ok (v, r)) : r <:+ ts := by
  obtain ⟨ts1, h1, h2⟩ := bind_ok h
  exact (get_scalar_value_suffix h2).trans (expect_suffix h1)

theorem get_key_value_suffix {ts : List Tok} {kv : String × String} {r : List Tok}
    (h : get_key_value ts = .ok (kv, r)) : r <:+ ts := by
  obtain ⟨⟨k, ts1⟩, h1, h2⟩ := bind_ok h
  obtain ⟨ts2, h3, h4⟩ := bind_ok h2
  obtain ⟨⟨v, ts3⟩, h5, h6⟩ := bind_ok h4
  simp [PResult.ok.injEq] at h6
  obtain ⟨-, rfl⟩ := h6
  exact ((get_scalar_value_suffix h5).trans (expect_suffix h3)).trans
    (get_scalar_value_suffix h1)

theorem get_multiple_values_suffix {ts : List Tok} {vs : List FlowSequenceEntry}
    {r : List Tok} (h : get_multiple_values ts = .ok (vs, r)) : r <:+ ts := by
  obtain ⟨ts1, h1, h2⟩ := bind_ok h
  obtain ⟨ts2, h3, h4⟩ := bind_ok h2
  exact ((get_flow_sequence_suffix h4).trans (expect_suffix h3)).trans
    (expect_suffix h1)

theorem get_single_or_multiple_values_suffix {ts : List Tok}
    {vs : List FlowSequenceEntry} {r : List Tok}
    (h : get_single_or_multiple_values ts = .ok (vs, r)) : r <:+ ts := by
  obtain ⟨ts1, h1, h2⟩ := bind_ok h
  have hsuf : r <:+ ts1 := by
    cases ts1 with
    | nil => simp at h2
    | cons t rest =>
      obtain ⟨m, tt⟩ := t
      cases tt <;> simp at h2
      case scalar v =>
        obtain ⟨-, rfl⟩ := h2
        exact List.suffix_cons _ _
      case flowSequenceStart =>
        exact (get_flow_sequence_suffix h2).trans (List.suffix_cons _ _)
  exact hsuf.trans (expect_suffix h1)

/-- The loop of get_block_sequence of parser.rs: one block mapping read into
a map of string keys to (value, Key-token marker); repeated keys overwrite. -/
def get_block_sequence_loop (result : BlockSequenceEntries) (ts : List Tok) :
    PResult (BlockSequenceEntries × List Tok) :=
  match ts with
  | [] => .fatal
  | (m, tt) :: rest =>
    match tt with
    | .key =>
      match h : get_key_value rest with
      | .ok (kv, r) =>
        have : r.length < rest.length + 1 :=
          Nat.lt_succ_of_le (get_key_value_suffix h).length_le
        get_block_sequence_loop (insertEntry result kv.1 ⟨kv.2, m⟩) r
      | .err e => .err e
      | .fatal => .fatal
    | .blockEnd => .ok (result, rest)
    | _ =>
      .err (get_error
        (.unexpectedEntryMulti [.key, .blockEnd] (get_token_def tt)) (some m))
termination_by ts.length
decreasing_by simp only [List.length_cons]; omega

/-- get_block_sequence of parser.rs. -/
def get_block_sequence (ts : List Tok) : PResult (BlockSequenceEntries × List Tok) :=
  (expect .blockMappingStart ts).bind fun ts1 => get_block_sequence_loop [] ts1

theorem get_block_sequence_loop_suffix :
    ∀ {result : BlockSequenceEntries} {ts : List Tok} {bs : BlockSequenceEntries}
      {r : List Tok}, get_block_sequence_loop result ts = .ok (bs, r) → r <:+ ts := by
  intro result ts
  induction result, ts using get_block_sequence_loop.induct with
  | case1 result => intro bs r h; simp [get_block_sequence_loop] at h
  | case2 result m rest kv r' h hlen ih =>
    intro bs r hh
    rw [get_block_sequence_loop] at hh
    split at hh
    next kv2 r2 heq =>
      rw [h] at heq
      cases heq
      exact ((ih hh).trans (get_key_value_suffix h)).trans (List.suffix_cons _ _)
    next e heq => cases hh
    next heq => cases hh
  | case3 result m rest e h =>
    intro bs r hh
    rw [get_block_sequence_loop] at hh
    split at hh
    next kv2 r2 heq => rw [h] at heq; cases heq
    next e2 heq => cases hh
    next heq => cases hh
  | case4 result m rest h =>
    intro bs r hh
    rw [get_block_sequence_loop] at hh
    split at hh
    next kv2 r2 heq => rw [h] at heq; cases heq
    next e2 heq => cases hh
    next heq => cases hh
  | case5 result m rest =>
    intro bs r hh
    rw [get_block_sequence_loop] at hh
    cases hh
    exact List.suffix_cons _ _
  | case6 result m tt rest hne1 hne2 =>
    intro bs r hh
    rw [get_block_sequence_loop] at hh
    · cases hh
    · exact hne1
    · exact hne2

theorem get_block_sequence_suffix {ts : List Tok} {bs : BlockSequenceEntries}
    {r : List Tok} (h : get_block_sequence ts = .ok (bs, r)) : r <:+ ts := by
  obtain ⟨ts1, h1, h2⟩ := bind_ok h
  exact (get_block_sequence_loop_suffix h2).trans (expect_suffix h1)

/-- get_block_sequences of parser.rs: BlockEntry starts one block mapping,
BlockEnd terminates; blocks collected in order. -/
def get_block_sequences (ts : List Tok) :
    PResult (List BlockSequenceEntries × List Tok) :=
  match ts with
  | [] => .fatal
  | (m, tt) :: rest =>
    match tt with
    | .blockEntry =>
      match h : get_block_sequence rest with
      | .ok (bs, r) =>
        have : r.length < rest.length + 1 :=
          Nat.lt_succ_of_le (get_block_sequence_suffix h).length_le
        (get_block_sequences r).bind fun (bss, r2) => .ok (bs :: bss, r2)
      | .err e => .err e
      | .fatal => .fatal
    | .blockEnd => .ok ([], rest)
    | _ =>
      .err (get_error
        (.unexpectedEntryMulti [.blockEntry, .blockEnd] (get_token_def tt))
        (some m))
termination_by ts.length
decreasing_by simp only [List.length_cons]; omega

theorem get_block_sequences_suffix :
    ∀ {ts : List Tok} {bss : List BlockSequenceEntries} {r : List Tok},
      get_block_sequences ts = .ok (bss, r) → r <:+ ts := by
  intro ts
  induction ts using get_block_sequences.induct with
  | case1 => intro bss r h; simp [get_block_sequences] at h
  | case2 m rest bs r' h hlen ih =>
    intro bss r hh
    rw [get_block_sequences] at hh
    split at hh
    next bs2 r2 heq =>
      rw [h] at heq
      cases heq
      obtain ⟨⟨bss2, r3⟩, hb1, hb2⟩ := bind_ok hh
      simp [PResult.ok.injEq] at hb2
      obtain ⟨-, rfl⟩ := hb2
      exact ((ih hb1).trans (get_block_sequence_suffix h)).trans (List.suffix_cons _ _)
    next e heq => cases hh
    next heq => cases hh
  | case3 m rest e h =>
    intro bss r hh
    rw [get_block_sequences] at hh
    split at hh
    next bs2 r2 heq => rw [h] at heq; cases heq
    next e2 heq => cases hh
    next heq => cases hh
  | case4 m rest h =>
    intro bss r hh
    rw [get_block_sequences] at hh
    split at hh
    next bs2 r2 heq => rw [h] at heq; cases heq
    next e2 heq => cases hh
    next heq => cases hh
  | case5 m rest =>
    intro bss r hh
    rw [get_block_sequences] at hh
    cases hh
    exact List.suffix_cons _ _
  | case6 m tt rest hne1 hne2 =>
    intro bss r hh
    rw [get_block_sequences] at hh
    · cases hh
    · exact hne1
    · exact hne2

/-- get_multiple_sets_of_values of parser.rs. -/
def get_multiple_sets_of_values (ts : List Tok) :
    PResult (List BlockSequenceEntries × List Tok) :=
  (expect .value ts).bind fun ts1 =>
  (expect .blockSequenceStart ts1).bind fun ts2 =>
  get_block_sequences ts2

theorem get_multiple_sets_of_values_suffix {ts : List Tok}
    {bss : List BlockSequenceEntries} {r : List Tok}
    (h : get_multiple_sets_of_values ts = .ok (bss, r)) : r <:+ ts := by
  obtain ⟨ts1, h1, h2⟩ := bind_ok h
  obtain ⟨ts2, h3, h4⟩ := bind_ok h2
  exact ((get_block_sequences_suffix h4).trans (expect_suffix h3)).trans
    (expect_suffix h1)

/-- The per-block closure inside get_documentation of parser.rs: walk the
entries of one block, record title/content, reject any other key; at the end
a missing title is a typed MissingField error, while a missing content hits
content.unwrap() — a panic, modelled fatal. -/
def documentation_of_block (title content : Option String) :
    List (String × BlockSequenceEntry) → PResult RamlDocumentation
  | [] =>
    match title with
    | none => .err (get_error (.missingField "title" .documentation) none)
    | some t =>
      match content with
      | some c => .ok ⟨t, c⟩
      | none => .fatal
  | (k, e) :: rest =>
    if k = "title" then documentation_of_block (some e.value) content rest
    else if k = "content" then documentation_of_block title (some e.value) rest
    else .err (get_error (.unexpectedKeyRoot k .documentation) (some e.marker))

/-- The map/collect over blocks inside get_documentation of parser.rs
(short-circuits at the first error). -/
def documentation_of_blocks : List BlockSequenceEntries → PResult (List RamlDocumentation)
  | [] => .ok []
  | s :: rest =>
    (documentation_of_block none none s).bind fun d =>
    (documentation_of_blocks rest).bind fun ds => .ok (d :: ds)

/-- get_documentation of parser.rs. -/
def get_documentation (ts : List Tok) :
    PResult (List RamlDocumentation × List Tok) :=
  (get_multiple_sets_of_values ts).bind fun (bss, r) =>
  (documentation_of_blocks bss).bind fun ds => .ok (ds, r)

theorem get_documentation_suffix {ts : List Tok} {ds : List RamlDocumentation}
    {r : List Tok} (h : get_documentation ts = .ok (ds, r)) : r <:+ ts := by
  obtain ⟨⟨bss, r1⟩, h1, h2⟩ := bind_ok h
  obtain ⟨ds2, h3, h4⟩ := bind_ok h2
  simp [PResult.ok.injEq] at h4
  obtain ⟨-, rfl⟩ := h4
  exact get_multiple_sets_of_values_suffix h1

/-- The element-wise protocol interpretation inside get_protocols of
parser.rs (map + collect: short-circuits at the first invalid element). -/
def protocols_of_entries : List FlowSequenceEntry → PResult (List Protocol)
  | [] => .ok []
  | e :: rest =>
    if to_lowercase e.value = "http" then
      (protocols_of_entries rest).bind fun ps => .ok (.http :: ps)
    else if to_lowercase e.value = "https" then
      (protocols_of_entries rest).bind fun ps => .ok (.https :: ps)
    else .err (get_error .unexpectedProtocol (some e.marker))

/-- get_protocols of parser.rs. -/
def get_protocols (ts : List Tok) : PResult (List Protocol × List Tok) :=
  (get_multiple_values ts).bind fun (entries, r) =>
  if entries.isEmpty then .err (get_error .missingProtocols none)
  else (protocols_of_entries entries).bind fun ps => .ok (ps, r)

theorem get_protocols_suffix {ts : List Tok} {ps : List Protocol} {r : List Tok}
    (h : get_protocols ts = .ok (ps, r)) : r <:+ ts := by
  obtain ⟨⟨entries, r1⟩, h1, h2⟩ := bind_ok h
  simp only [get_protocols] at h2
  split at h2
  · cases h2
  · obtain ⟨ps2, h3, h4⟩ := bind_ok h2
    simp [PResult.ok.injEq] at h4
    obtain ⟨-, rfl⟩ := h4
    exact get_multiple_values_suffix h1

/-- get_media_types of parser.rs. -/
def get_media_types (ts : List Tok) : PResult (List String × List Tok) :=
  (get_single_or_multiple_values ts).bind fun (entries, r) =>
  .ok (entries.map (fun e => e.value), r)

theorem get_media_types_suffix {ts : List Tok} {ms : List String} {r : List Tok}
    (h : get_media_types ts = .ok (ms, r)) : r <:+ ts := by
  obtain ⟨⟨entries, r1⟩, h1, h2⟩ := bind_ok h
  simp [PResult.ok.injEq] at h2
  obtain ⟨-, rfl⟩ := h2
  exact get_single_or_multiple_values_suffix h1

/-- SecuritySchemeType::from_str of parser.rs: match on the lowercased
string, with an x- escape hatch carrying the lowercased string. -/
def SecuritySchemeType.from_str (s : String) : PResult SecuritySchemeType :=
  let l := to_lowercase s
  if l = "oauth 1.0" then .ok .oAuth1
  else if l = "oauth 2.0" then .ok .oAuth2
  else if l = "basic authentication" then .ok .basicAuthentication
  else if l = "digest authentication" then .ok .digestAuthentication
  else if l = "pass through" then .ok .passThrough
  else if starts_with l "x-" then .ok (.xOther l)
  else .err (get_error .invalidSecuritySchemeType none)

/-- The key/value loop of get_security_scheme of parser.rs.  Note: the only
recognized key is "type"; any other scalar key is rejected with
UnexpectedKeyRoot at level DocumentRoot (this is what the source does). -/
def get_security_scheme_loop (security_type : Option SecuritySchemeType)
    (ts : List Tok) : PResult (Option SecuritySchemeType × List Tok) :=
  match ts with
  | [] => .fatal
  | (m, tt) :: rest =>
    match tt with
    | .key =>
      match rest with
      | [] => .fatal
      | (m2, tt2) :: rest2 =>
        match tt2 with
        | .scalar v =>
          if v = "type" then
            match h : get_single_value rest2 with
            | .ok (str, r) =>
              match SecuritySchemeType.from_str str with
              | .ok t =>
                have : r.length < rest2.length + 2 :=
                  Nat.lt_succ_of_lt
                    (Nat.lt_succ_of_le (get_single_value_suffix h).length_le)
                get_security_scheme_loop (some t) r
              | .err e => .err e
              | .fatal => .fatal
            | .err e => .err e
            | .fatal => .fatal
          else .err (get_error (.unexpectedKeyRoot v .documentRoot) (some m2))
        | _ =>
          .err (get_error (.unexpectedEntry .scalar (get_token_def tt2)) (some m2))
    | .blockEnd => .ok (security_type, rest)
    | _ => .err (get_error (.unexpectedEntry .key (get_token_def tt)) (some m))
termination_by ts.length
decreasing_by simp only [List.length_cons]; omega

/-- get_security_scheme of parser.rs: at BlockEnd the accumulated option is
unwrapped — a panic (fatal) when no "type" key was seen. -/
def get_security_scheme (ts : List Tok) : PResult (SecurityScheme × List Tok) :=
  (expect .value ts).bind fun ts1 =>
  (expect .blockMappingStart ts1).bind fun ts2 =>
  (get_security_scheme_loop none ts2).bind fun (st, r) =>
  match st with
  | some t => .ok (⟨t⟩, r)
  | none => .fatal

theorem get_security_scheme_loop_suffix :
    ∀ {st : Option SecuritySchemeType} {ts : List Tok}
      {stOut : Option SecuritySchemeType} {r : List Tok},
      get_security_scheme_loop st ts = .ok (stOut, r) → r <:+ ts := by
  intro st ts
  induction st, ts using get_security_scheme_loop.induct with
  | case1 st => intro stOut r hh; simp [get_security_scheme_loop] at hh
  | case2 st m => intro stOut r hh; rw [get_security_scheme_loop] at hh; cases hh
  | case3 st m m1 rest str r' h t hfs hlen ih =>
    intro stOut r hh
    rw [get_security_scheme_loop, if_pos rfl] at hh
    split at hh
    next str2 r2 heq =>
      rw [h] at heq
      cases heq
      rw [hfs] at hh
      have hs : r <:+ r' := ih hh
      exact ((hs.trans (get_single_value_suffix h)).trans (List.suffix_cons _ _)).trans
        (List.suffix_cons _ _)
    next e heq => cases hh
    next heq => cases hh
  | case4 st m m1 rest str r' h e hfs =>
    intro stOut r hh
    rw [get_security_scheme_loop, if_pos rfl] at hh
    split at hh
    next str2 r2 heq =>
      rw [h] at heq
      cases heq
      rw [hfs] at hh
      cases hh
    next e2 heq => cases hh
    next heq => cases hh
  | case5 st m m1 rest str r' h hfs =>
    intro stOut r hh
    rw [get_security_scheme_loop, if_pos rfl] at hh
    split at hh
    next str2 r2 heq =>
      rw [h] at heq
      cases heq
      rw [hfs] at hh
      cases hh
    next e2 heq => cases hh
    next heq => cases hh
  | case6 st m m1 rest e h =>
    intro stOut r hh
    rw [get_security_scheme_loop, if_pos rfl] at hh
    split at hh
    next str2 r2 heq => rw [h] at heq; cases heq
    next e2 heq => cases hh
    next heq => cases hh
  | case7 st m m1 rest h =>
    intro stOut r hh
    rw [get_security_scheme_loop, if_pos rfl] at hh
    split at hh
    next str2 r2 heq => rw [h] at heq; cases heq
    next e2 heq => cases hh
    next heq => cases hh
  | case8 st m m1 rest v hv =>
    intro stOut r hh
    rw [get_security_scheme_loop, if_neg hv] at hh
    cases hh
  | case9 st m m1 tt rest hscal =>
    intro stOut r hh
    rw [get_security_scheme_loop] at hh
    · cases hh
    · exact hscal
  | case10 st m rest =>
    intro stOut r hh
    rw [get_security_scheme_loop] at hh
    cases hh
    exact List.suffix_cons _ _
  | case11 st m tt rest hne1 hne2 =>
    intro stOut r hh
    rw [get_security_scheme_loop] at hh
    · cases hh
    · exact hne1
    · exact hne2

theorem get_security_scheme_suffix {ts : List Tok} {sch : SecurityScheme}
    {r : List Tok} (h : get_security_scheme ts = .ok (sch, r)) : r <:+ ts := by
  obtain ⟨ts1, h1, h2⟩ := bind_ok h
  obtain ⟨ts2, h3, h4⟩ := bind_ok h2
  obtain ⟨⟨st, r1⟩, h5, h6⟩ := bind_ok h4
  have hr : r = r1 := by
    cases st <;> simp at h6
    exact h6.2.symm
  subst hr
  exact ((get_security_scheme_loop_suffix h5).trans (expect_suffix h3)).trans
    (expect_suffix h1)

/-- The scheme-name loop of get_security_schemes of parser.rs: Key then
scalar scheme name then one scheme block; later entries with the same name
overwrite earlier ones. -/
def get_security_schemes_loop (result : List (String × SecurityScheme))
    (ts : List Tok) : PResult (List (String × SecurityScheme) × List Tok) :=
  match ts with
  | [] => .fatal
  | (m, tt) :: rest =>
    match tt with
    | .key =>
      match rest with
      | [] => .fatal
      | (m2, tt2) :: rest2 =>
        match tt2 with
        | .scalar v =>
          match h : get_security_scheme rest2 with
          | .ok (sch, r) =>
            have : r.length < rest2.length + 2 :=
              Nat.lt_succ_of_lt
                (Nat.lt_succ_of_le (get_security_scheme_suffix h).length_le)
            get_security_schemes_loop (insertEntry result v sch) r
          | .err e => .err e
          | .fatal => .fatal
        | _ =>
          .err (get_error (.unexpectedEntry .scalar (get_token_def tt2)) (some m2))
    | .blockEnd => .ok (result, rest)
    | _ => .err (get_error (.unexpectedEntry .key (get_token_def tt)) (some m))
termination_by ts.length
decreasing_by simp only [List.length_cons]; omega

/-- get_security_schemes of parser.rs. -/
def get_security_schemes (ts : List Tok) :
    PResult (List (String × SecurityScheme) × List Tok) :=
  (expect .value ts).bind fun ts1 =>
  (expect .blockMappingStart ts1).bind fun ts2 =>
  get_security_schemes_loop [] ts2

theorem get_security_schemes_loop_suffix :
    ∀ {result : List (String × SecurityScheme)} {ts : List Tok}
      {out : List (String × SecurityScheme)} {r : List Tok},
      get_security_schemes_loop result ts = .ok (out, r) → r <:+ ts := by
  intro result ts
  induction result, ts using get_security_schemes_loop.induct with
  | case1 result => intro out r hh; simp [get_security_schemes_loop] at hh
  | case2 result m =>
    intro out r hh
    rw [get_security_schemes_loop] at hh
    cases hh
  | case3 result m m1 rest v sch r' h hlen ih =>
    intro out r hh
    rw [get_security_schemes_loop] at hh
    split at hh
    next sch2 r2 heq =>
      rw [h] at heq
      cases heq
      have hs : r <:+ r' := ih hh
      exact ((hs.trans (get_security_scheme_suffix h)).trans (List.suffix_cons _ _)).trans
        (List.suffix_cons _ _)
    next e heq => cases hh
    next heq => cases hh
  | case4 result m m1 rest v e h =>
    intro out r hh
    rw [get_security_schemes_loop] at hh
    split at hh
    next sch2 r2 heq => rw [h] at heq; cases heq
    next e2 heq => cases hh
    next heq => cases hh
  | case5 result m m1 rest v h =>
    intro out r hh
    rw [get_security_schemes_loop] at hh
    split at hh
    next sch2 r2 heq => rw [h] at heq; cases heq
    next e2 heq => cases hh
    next heq => cases hh
  | case6 result m m1 tt rest hscal =>
    intro out r hh
    rw [get_security_schemes_loop] at hh
    · cases hh
    · exact hscal
  | case7 result m rest =>
    intro out r hh
    rw [get_security_schemes_loop] at hh
    cases hh
    exact List.suffix_cons _ _
  | case8 result m tt rest hne1 hne2 =>
    intro out r hh
    rw [get_security_schemes_loop] at hh
    · cases hh
    · exact hne1
    · exact hne2

theorem get_security_schemes_suffix {ts : List Tok}
    {out : List (String × SecurityScheme)} {r : List Tok}
    (h : get_security_schemes ts = .ok (out, r)) : r <:+ ts := by
  obtain ⟨ts1, h1, h2⟩ := bind_ok h
  obtain ⟨ts2, h3, h4⟩ := bind_ok h2
  exact ((get_security_schemes_loop_suffix h4).trans (expect_suffix h3)).trans
    (expect_suffix h1)

/-- The key-dispatch loop of parse_root of parser.rs, with the mutable
accumulator locals threaded explicitly.  At BlockEnd a missing title is the
typed MissingField error; note the check is Option::is_none, so an empty
title string passes. -/
def parse_root_loop (title version description base_uri : Option String)
    (protocols : Option (List Protocol)) (media_types : Option (List String))
    (documentation : Option (List RamlDocumentation))
    (security_schemes : Option (List (String × SecurityScheme)))
    (ts : List Tok) : PResult Raml :=
  match ts with
  | [] => .fatal
  | (m, tt) :: rest =>
    match tt with
    | .key =>
      match rest with
      | [] => .fatal
      | (m2, tt2) :: rest2 =>
        match tt2 with
        | .scalar v =>
          if v = "title" then
            match h : get_single_value rest2 with
            | .ok (s, r) =>
              have : r.length < rest2.length + 2 :=
                Nat.lt_succ_of_lt
                  (Nat.lt_succ_of_le (get_single_value_suffix h).length_le)
              parse_root_loop (some s) version description base_uri protocols
                media_types documentation security_schemes r
            | .err e => .err e
            | .fatal => .fatal
          else if v = "version" then
            match h : get_single_value rest2 with
            | .ok (s, r) =>
              have : r.length < rest2.length + 2 :=
                Nat.lt_succ_of_lt
                  (Nat.lt_succ_of_le (get_single_value_suffix h).length_le)
              parse_root_loop title (some s) description base_uri protocols
                media_types documentation security_schemes r
            | .err e => .err e
            | .fatal => .fatal
          else if v = "description" then
            match h : get_single_value rest2 with
            | .ok (s, r) =>
              have : r.length < rest2.length + 2 :=
                Nat.lt_succ_of_lt
                  (Nat.lt_succ_of_le (get_single_value_suffix h).length_le)
              parse_root_loop title version (some s) base_uri protocols
                media_types documentation security_schemes r
            | .err e => .err e
            | .fatal => .fatal
          else if v = "baseUri" then
            match h : get_single_value rest2 with
            | .ok (s, r) =>
              have : r.length < rest2.length + 2 :=
                Nat.lt_succ_of_lt
                  (Nat.lt_succ_of_le (get_single_value_suffix h).length_le)
              parse_root_loop title version description (some s) protocols
                media_types documentation security_schemes r
            | .err e => .err e
            | .fatal => .fatal
          else if v = "protocols" then
            match h : get_protocols rest2 with
            | .ok (ps, r) =>
              have : r.length < rest2.length + 2 :=
                Nat.lt_succ_of_lt
                  (Nat.lt_succ_of_le (get_protocols_suffix h).length_le)
              parse_root_loop title version description base_uri (some ps)
                media_types documentation security_schemes r
            | .err e => .err e
            | .fatal => .fatal
          else if v = "mediaType" then
            match h : get_media_types rest2 with
            | .ok (ms, r) =>
              have : r.length < rest2.length + 2 :=
                Nat.lt_succ_of_lt
                  (Nat.lt_succ_of_le (get_media_types_suffix h).length_le)
              parse_root_loop title version description base_uri protocols
                (some ms) documentation security_schemes r
            | .err e => .err e
            | .fatal => .fatal
          else if v = "documentation" then
            match h : get_documentation rest2 with
            | .ok (ds, r) =>
              have : r.length < rest2.length + 2 :=
                Nat.lt_succ_of_lt
                  (Nat.lt_succ_of_le (get_documentation_suffix h).length_le)
              parse_root_loop title version description base_uri protocols
                media_types (some ds) security_schemes r
            | .err e => .err e
            | .fatal => .fatal
          else if v = "securitySchemes" then
            match h : get_security_schemes rest2 with
            | .ok (ss, r) =>
              have : r.length < rest2.length + 2 :=
                Nat.lt_succ_of_lt
                  (Nat.lt_succ_of_le (get_security_schemes_suffix h).length_le)
              parse_root_loop title version description base_uri protocols
                media_types documentation (some ss) r
            | .err e => .err e
            | .fatal => .fatal
          else .err (get_error (.unexpectedKeyRoot v .documentRoot) (some m2))
        | _ =>
          .err (get_error (.unexpectedEntry .scalar (get_token_def tt2)) (some m2))
    | .blockEnd =>
      match title with
      | none => .err (get_error (.missingField "title" .documentRoot) none)
      | some t =>
        .ok { title := t, version := version, description := description,
              base_uri := base_uri, protocols := protocols,
              media_types := media_types, documentation := documentation,
              security_schemes := security_schemes }
    | _ => .err (get_error (.unexpectedEntry .key (get_token_def tt)) (some m))
termination_by ts.length
decreasing_by all_goals simp only [List.length_cons]; omega

/-- parse_root of parser.rs. -/
def parse_root (ts : List Tok) : PResult Raml :=
  (expect .streamStart ts).bind fun ts1 =>
  (expect .blockMappingStart ts1).bind fun ts2 =>
  parse_root_loop none none none none none none none none ts2

/-- Rust str::lines().next().unwrap_or_default(): the text before the first
newline (a trailing carriage return is stripped by the trim that follows). -/
def first_line (s : String) : String :=
  ⟨s.data.takeWhile (fun c => c ≠ '\n')⟩

/-- Rust str::trim (whitespace stripped at both ends). -/
def trim_string (s : String) : String :=
  ⟨((s.data.dropWhile Char.isWhitespace).reverse.dropWhile Char.isWhitespace).reverse⟩

/-- error_if_incorrect_raml_comment of parser.rs: a purely textual check on
the first line, before any token is pulled. -/
def error_if_incorrect_raml_comment (s : String) : Option RamlError :=
  if trim_string (first_line s) = "#%RAML 1.0" then none
  else some (get_error .missingRamlVersion none)

/-- parse_raml_string of parser.rs (the body of RamlParser::load_from_str).
The token list is what the external tokenizer yields for the source text;
the marker check reads only the text. -/
def parse_raml_string (source : String) (ts : List Tok) : PResult Raml :=
  match error_if_incorrect_raml_comment source with
  | some e => .err e
  | none => parse_root ts

theorem mem_lift2 {x a b : Tok} {l1 l2 : List Tok} (hs : l1 <:+ l2)
    (hm : x ∈ l1) : x ∈ a :: b :: l2 :=
  List.mem_cons_of_mem _ (List.mem_cons_of_mem _ (hs.subset hm))

theorem parse_root_loop_title_mem :
    ∀ {t v d b : Option String} {p : Option (List Protocol)}
      {mt : Option (List String)} {doc : Option (List RamlDocumentation)}
      {ss : Option (List (String × SecurityScheme))} {ts : List Tok} {r : Raml},
      parse_root_loop t v d b p mt doc ss ts = .ok r →
      t ≠ none ∨ ∃ m, (m, TokenType.scalar "title") ∈ ts := by
  intro t v d b p mt doc ss ts
  induction t, v, d, b, p, mt, doc, ss, ts using parse_root_loop.induct with
  | case1 t v d b p mt doc ss => intro r hh; simp [parse_root_loop] at hh
  | case2 t v d b p mt doc ss m =>
    intro r hh
    rw [parse_root_loop] at hh
    cases hh
  | case3 t v d b p mt doc ss m m1 rest s r' h hlen ih =>
    intro r hh
    exact Or.inr ⟨m1, by simp⟩
  | case4 t v d b p mt doc ss m m1 rest e h =>
    intro r hh
    exact Or.inr ⟨m1, by simp⟩
  | case5 t v d b p mt doc ss m m1 rest h =>
    intro r hh
    exact Or.inr ⟨m1, by simp⟩
  | case6 t v d b p mt doc ss m m1 rest s r' h hlen hne1 ih =>
    intro r hh
    rw [parse_root_loop, if_neg hne1, if_pos rfl] at hh
    split at hh
    next s2 r2 heq =>
      rw [h] at heq
      cases heq
      rcases ih hh with hl | ⟨mm, hmem⟩
      · exact Or.inl hl
      · exact Or.inr ⟨mm, mem_lift2 (get_single_value_suffix h) hmem⟩
    next e2 heq => cases hh
    next heq => cases hh
  | case7 t v d b p mt doc ss m m1 rest e h hne1 =>
    intro r hh
    rw [parse_root_loop, if_neg hne1, if_pos rfl] at hh
    split at hh
    next s2 r2 heq => rw [h] at heq; cases heq
    next e2 heq => cases hh
    next heq => cases hh
  | case8 t v d b p mt doc ss m m1 rest h hne1 =>
    intro r hh
    rw [parse_root_loop, if_neg hne1, if_pos rfl] at hh
    split at hh
    next s2 r2 heq => rw [h] at heq; cases heq
    next e2 heq => cases hh
    next heq => cases hh
  | case9 t v d b p mt doc ss m m1 rest s r' h hlen hne1 hne2 ih =>
    intro r hh
    rw [parse_root_loop, if_neg hne1, if_neg hne2, if_pos rfl] at hh
    split at hh
    next s2 r2 heq =>
      rw [h] at heq
      cases heq
      rcases ih hh with hl | ⟨mm, hmem⟩
      · exact Or.inl hl
      · exact Or.inr ⟨mm, mem_lift2 (get_single_value_suffix h) hmem⟩
    next e2 heq => cases hh
    next heq => cases hh
  | case10 t v d b p mt doc ss m m1 rest e h hne1 hne2 =>
    intro r hh
    rw [parse_root_loop, if_neg hne1, if_neg hne2, if_pos rfl] at hh
    split at hh
    next s2 r2 heq => rw [h] at heq; cases heq
    next e2 heq => cases hh
    next heq => cases hh
  | case11 t v d b p mt doc ss m m1 rest h hne1 hne2 =>
    intro r hh
    rw [parse_root_loop, if_neg hne1, if_neg hne2, if_pos rfl] at hh
    split at hh
    next s2 r2 heq => rw [h] at heq; cases heq
    next e2 heq => cases hh
    next heq => cases hh
  | case12 t v d b p mt doc ss m m1 rest s r' h hlen hne1 hne2 hne3 ih =>
    intro r hh
    rw [parse_root_loop, if_neg hne1, if_neg hne2, if_neg hne3, if_pos rfl] at hh
    split at hh
    next s2 r2 heq =>
      rw [h] at heq
      cases heq
      rcases ih hh with hl | ⟨mm, hmem⟩
      · exact Or.inl hl
      · exact Or.inr ⟨mm, mem_lift2 (get_single_value_suffix h) hmem⟩
    next e2 heq => cases hh
    next heq => cases hh
  | case13 t v d b p mt doc ss m m1 rest e h hne1 hne2 hne3 =>
    intro r hh
    rw [parse_root_loop, if_neg hne1, if_neg hne2, if_neg hne3, if_pos rfl] at hh
    split at hh
    next s2 r2 heq => rw [h] at heq; cases heq
    next e2 heq => cases hh
    next heq => cases hh
  | case14 t v d b p mt doc ss m m1 rest h hne1 hne2 hne3 =>
    intro r hh
    rw [parse_root_loop, if_neg hne1, if_neg hne2, if_neg hne3, if_pos rfl] at hh
    split at hh
    next s2 r2 heq => rw [h] at heq; cases heq
    next e2 heq => cases hh
    next heq => cases hh
  | case15 t v d b p mt doc ss m m1 rest s r' h hlen hne1 hne2 hne3 hne4 ih =>
    intro r hh
    rw [parse_root_loop, if_neg hne1, if_neg hne2, if_neg hne3, if_neg hne4, if_pos rfl] at hh
    split at hh
    next s2 r2 heq =>
      rw [h] at heq
      cases heq
      rcases ih hh with hl | ⟨mm, hmem⟩
      · exact Or.inl hl
      · exact Or.inr ⟨mm, mem_lift2 (get_protocols_suffix h) hmem⟩
    next e2 heq => cases hh
    next heq => cases hh
  | case16 t v d b p mt doc ss m m1 rest e h hne1 hne2 hne3 hne4 =>
    intro r hh
    rw [parse_root_loop, if_neg hne1, if_neg hne2, if_neg hne3, if_neg hne4, if_pos rfl] at hh
    split at hh
    next s2 r2 heq => rw [h] at heq; cases heq
    next e2 heq => cases hh
    next heq => cases hh
  | case17 t v d b p mt doc ss m m1 rest h hne1 hne2 hne3 hne4 =>
    intro r hh
    rw [parse_root_loop, if_neg hne1, if_neg hne2, if_neg hne3, if_neg hne4, if_pos rfl] at hh
    split at hh
    next s2 r2 heq => rw [h] at heq; cases heq
    next e2 heq => cases hh
    next heq => cases hh
  | case18 t v d b p mt doc ss m m1 rest s r' h hlen hne1 hne2 hne3 hne4 hne5 ih =>
    intro r hh
    rw [parse_root_loop, if_neg hne1, if_neg hne2, if_neg hne3, if_neg hne4, if_neg hne5, if_pos rfl] at hh
    split at hh
    next s2 r2 heq =>
      rw [h] at heq
      cases heq
      rcases ih hh with hl | ⟨mm, hmem⟩
      · exact Or.inl hl
      · exact Or.inr ⟨mm, mem_lift2 (get_media_types_suffix h) hmem⟩
    next e2 heq => cases hh
    next heq => cases hh
  | case19 t v d b p mt doc ss m m1 rest e h hne1 hne2 hne3 hne4 hne5 =>
    intro r hh
    rw [parse_root_loop, if_neg hne1, if_neg hne2, if_neg hne3, if_neg hne4, if_neg hne5, if_pos rfl] at hh
    split at hh
    next s2 r2 heq => rw [h] at heq; cases heq
    next e2 heq => cases hh
    next heq => cases hh
  | case20 t v d b p mt doc ss m m1 rest h hne1 hne2 hne3 hne4 hne5 =>
    intro r hh
    rw [parse_root_loop, if_neg hne1, if_neg hne2, if_neg hne3, if_neg hne4, if_neg hne5, if_pos rfl] at hh
    split at hh
    next s2 r2 heq => rw [h] at heq; cases heq
    next e2 heq => cases hh
    next heq => cases hh
  | case21 t v d b p mt doc ss m m1 rest s r' h hlen hne1 hne2 hne3 hne4 hne5 hne6 ih =>
    intro r hh
    rw [parse_root_loop, if_neg hne1, if_neg hne2, if_neg hne3, if_neg hne4, if_neg hne5, if_neg hne6, if_pos rfl] at hh
    split at hh
    next s2 r2 heq =>
      rw [h] at heq
      cases heq
      rcases ih hh with hl | ⟨mm, hmem⟩
      · exact Or.inl hl
      · exact Or.inr ⟨mm, mem_lift2 (get_documentation_suffix h) hmem⟩
    next e2 heq => cases hh
    next heq => cases hh
  | case22 t v d b p mt doc ss m m1 rest e h hne1 hne2 hne3 hne4 hne5 hne6 =>
    intro r hh
    rw [parse_root_loop, if_neg hne1, if_neg hne2, if_neg hne3, if_neg hne4, if_neg hne5, if_neg hne6, if_pos rfl] at hh
    split at hh
    next s2 r2 heq => rw [h] at heq; cases heq
    next e2 heq => cases hh
    next heq => cases hh
  | case23 t v d b p mt doc ss m m1 rest h hne1 hne2 hne3 hne4 hne5 hne6 =>
    intro r hh
    rw [parse_root_loop, if_neg hne1, if_neg hne2, if_neg hne3, if_neg hne4, if_neg hne5, if_neg hne6, if_pos rfl] at hh
    split at hh
    next s2 r2 heq => rw [h] at heq; cases heq
    next e2 heq => cases hh
    next heq => cases hh
  | case24 t v d b p mt doc ss m m1 rest s r' h hlen hne1 hne2 hne3 hne4 hne5 hne6 hne7 ih =>
    intro r hh
    rw [parse_root_loop, if_neg hne1, if_neg hne2, if_neg hne3, if_neg hne4, if_neg hne5, if_neg hne6, if_neg hne7, if_pos rfl] at hh
    split at hh
    next s2 r2 heq =>
      rw [h] at heq
      cases heq
      rcases ih hh with hl | ⟨mm, hmem⟩
      · exact Or.inl hl
      · exact Or.inr ⟨mm, mem_lift2 (get_security_schemes_suffix h) hmem⟩
    next e2 heq => cases hh
    next heq => cases hh
  | case25 t v d b p mt doc ss m m1 rest e h hne1 hne2 hne3 hne4 hne5 hne6 hne7 =>
    intro r hh
    rw [parse_root_loop, if_neg hne1, if_neg hne2, if_neg hne3, if_neg hne4, if_neg hne5, if_neg hne6, if_neg hne7, if_pos rfl] at hh
    split at hh
    next s2 r2 heq => rw [h] at heq; cases heq
    next e2 heq => cases hh
    next heq => cases hh
  | case26 t v d b p mt doc ss m m1 rest h hne1 hne2 hne3 hne4 hne5 hne6 hne7 =>
    intro r hh
    rw [parse_root_loop, if_neg hne1, if_neg hne2, if_neg hne3, if_neg hne4, if_neg hne5, if_neg hne6, if_neg hne7, if_pos rfl] at hh
    split at hh
    next s2 r2 heq => rw [h] at heq; cases heq
    next e2 heq => cases hh
    next heq => cases hh
  | case27 t v d b p mt doc ss m m1 rest vk hne1 hne2 hne3 hne4 hne5 hne6 hne7 hne8 =>
    intro r hh
    rw [parse_root_loop, if_neg hne1, if_neg hne2, if_neg hne3, if_neg hne4, if_neg hne5, if_neg hne6, if_neg hne7, if_neg hne8] at hh
    cases hh
  | case28 t v d b p mt doc ss m m1 tt rest hscal =>
    intro r hh
    rw [parse_root_loop] at hh
    · cases hh
    · exact hscal
  | case29 v d b p mt doc ss m rest =>
    intro r hh
    rw [parse_root_loop] at hh
    cases hh
  | case30 v d b p mt doc ss m rest tstr =>
    intro r hh
    exact Or.inl (by simp)
  | case31 t v d b p mt doc ss m tt rest hne1 hne2 =>
    intro r hh
    rw [parse_root_loop] at hh
    · cases hh
    · exact hne1
    · exact hne2

theorem parse_root_title_mem {ts : List Tok} {r : Raml}
    (h : parse_root ts = .ok r) : ∃ m, (m, TokenType.scalar "title") ∈ ts := by
  obtain ⟨ts1, h1, h2⟩ := bind_ok h
  obtain ⟨ts2, h3, h4⟩ := bind_ok h2
  rcases parse_root_loop_title_mem h4 with hl | ⟨mm, hmem⟩
  · exact absurd rfl hl
  · exact ⟨mm, (expect_suffix h1).subset ((expect_suffix h3).subset hmem)⟩

theorem get_flow_sequence_scalars :
    ∀ (ps : List (Marker × String)) (m2 : Marker) (rest : List Tok),
      get_flow_sequence
          ((ps.map fun q => (q.1, TokenType.scalar q.2)) ++
            (m2, TokenType.flowSequenceEnd) :: rest)
        = .ok (ps.map fun q => ⟨q.2, q.1⟩, rest) := by
  intro ps m2 rest
  induction ps with
  | nil => simp [get_flow_sequence]
  | cons q qs ih => simp [get_flow_sequence, PResult.bind, ih]

theorem protocols_of_entries_valid :
    ∀ (es : List FlowSequenceEntry),
      (∀ e ∈ es, to_lowercase e.value = "http" ∨ to_lowercase e.value = "https") →
      protocols_of_entries es =
        .ok (es.map fun e =>
          if to_lowercase e.value = "http" then Protocol.http else Protocol.https) := by
  intro es h
  induction es with
  | nil => simp [protocols_of_entries]
  | cons e rest ih =>
    have he := h e (by simp)
    have hrest := ih (fun x hx => h x (by simp [hx]))
    rcases he with he | he <;>
      simp [protocols_of_entries, he, hrest, PResult.bind]

theorem protocols_of_entries_first_invalid :
    ∀ (pre : List FlowSequenceEntry) (q : FlowSequenceEntry)
      (post : List FlowSequenceEntry),
      (∀ e ∈ pre, to_lowercase e.value = "http" ∨ to_lowercase e.value = "https") →
      to_lowercase q.value ≠ "http" → to_lowercase q.value ≠ "https" →
      protocols_of_entries (pre ++ q :: post) =
        .err (get_error .unexpectedProtocol (some q.marker)) := by
  intro pre q post hpre hq1 hq2
  induction pre with
  | nil => simp [protocols_of_entries, hq1, hq2]
  | cons e rest ih =>
    have he := hpre e (by simp)
    have hrest := ih (fun x hx => hpre x (by simp [hx]))
    rcases he with he | he <;>
      simp [protocols_of_entries, he, hrest, PResult.bind]

/-- Claim C1.  The claim says a security-scheme block whose BlockEnd is
reached without a "type" key yields the typed error
MissingField(type, security-scheme).  The source instead calls
Option::unwrap on the never-assigned accumulator (parser.rs line 491), a
panic: evaluating the embedded get_security_scheme on a block that ends
immediately gives the fatal outcome, not an error value. -/
theorem C1_security_scheme_missing_type_panics :
    get_security_scheme
      [(⟨0, 0, 0⟩, .value), (⟨0, 0, 1⟩, .blockMappingStart), (⟨1, 1, 1⟩, .blockEnd)]
      = .fatal := by
  simp [get_security_scheme, expect, get_token_def, PResult.bind,
    get_security_scheme_loop]

/-- Claim C2.  The claim says a documentation block missing "title" or
"content" fails with a hard (typed) error.  Missing "title" does, but a
block with a title and no content reaches content.unwrap() (parser.rs line
395), a panic: the embedded get_documentation on such a block gives the
fatal outcome, not an error value. -/
theorem C2_documentation_missing_content_panics :
    get_documentation
      [(⟨1, 1, 1⟩, .value), (⟨2, 2, 2⟩, .blockSequenceStart), (⟨3, 3, 3⟩, .blockEntry),
       (⟨4, 4, 4⟩, .blockMappingStart), (⟨5, 5, 5⟩, .key), (⟨6, 6, 6⟩, .scalar "title"),
       (⟨7, 7, 7⟩, .value), (⟨8, 8, 8⟩, .scalar "Doc Title"), (⟨9, 9, 9⟩, .blockEnd),
       (⟨10, 10, 10⟩, .blockEnd)]
      = .fatal := by
  have h1 : get_block_sequence_loop []
      [(⟨5, 5, 5⟩, .key), (⟨6, 6, 6⟩, .scalar "title"), (⟨7, 7, 7⟩, .value),
       (⟨8, 8, 8⟩, .scalar "Doc Title"), (⟨9, 9, 9⟩, .blockEnd),
       (⟨10, 10, 10⟩, .blockEnd)]
      = .ok ([("title", ⟨"Doc Title", ⟨5, 5, 5⟩⟩)], [(⟨10, 10, 10⟩, .blockEnd)]) := by
    simp [get_block_sequence_loop, get_key_value, get_scalar_value, expect,
      get_token_def, PResult.bind, insertEntry]
  have h2 : get_block_sequence
      [(⟨4, 4, 4⟩, .blockMappingStart), (⟨5, 5, 5⟩, .key), (⟨6, 6, 6⟩, .scalar "title"),
       (⟨7, 7, 7⟩, .value), (⟨8, 8, 8⟩, .scalar "Doc Title"), (⟨9, 9, 9⟩, .blockEnd),
       (⟨10, 10, 10⟩, .blockEnd)]
      = .ok ([("title", ⟨"Doc Title", ⟨5, 5, 5⟩⟩)], [(⟨10, 10, 10⟩, .blockEnd)]) := by
    simp [get_block_sequence, expect, get_token_def, PResult.bind, h1]
  have h3 : get_block_sequences [(⟨10, 10, 10⟩, .blockEnd)] = .ok ([], []) := by
    simp [get_block_sequences]
  have h4 : get_block_sequences
      [(⟨3, 3, 3⟩, .blockEntry), (⟨4, 4, 4⟩, .blockMappingStart), (⟨5, 5, 5⟩, .key),
       (⟨6, 6, 6⟩, .scalar "title"), (⟨7, 7, 7⟩, .value),
       (⟨8, 8, 8⟩, .scalar "Doc Title"), (⟨9, 9, 9⟩, .blockEnd),
       (⟨10, 10, 10⟩, .blockEnd)]
      = .ok ([[("title", ⟨"Doc Title", ⟨5, 5, 5⟩⟩)]], []) := by
    rw [get_block_sequences]
    split
    next bs r heq =>
      rw [h2] at heq
      cases heq
      simp [h3, PResult.bind]
    next e heq => rw [h2] at heq; cases heq
    next heq => rw [h2] at heq; cases heq
  have h5 : get_multiple_sets_of_values
      [(⟨1, 1, 1⟩, .value), (⟨2, 2, 2⟩, .blockSequenceStart), (⟨3, 3, 3⟩, .blockEntry),
       (⟨4, 4, 4⟩, .blockMappingStart), (⟨5, 5, 5⟩, .key), (⟨6, 6, 6⟩, .scalar "title"),
       (⟨7, 7, 7⟩, .value), (⟨8, 8, 8⟩, .scalar "Doc Title"), (⟨9, 9, 9⟩, .blockEnd),
       (⟨10, 10, 10⟩, .blockEnd)]
      = .ok ([[("title", ⟨"Doc Title", ⟨5, 5, 5⟩⟩)]], []) := by
    simp [get_multiple_sets_of_values, expect, get_token_def, PResult.bind, h4]
  simp [get_documentation, h5, documentation_of_blocks, documentation_of_block,
    PResult.bind]

/-- Claim C3.  The claim says the security-scheme block parser accepts
"displayName" and "description" as optional fields and rejects other keys
at level security-scheme.  The source (parser.rs lines 462-468) rejects
every key other than "type" — including "displayName" — with
UnexpectedKeyRoot at level DocumentRoot: evaluating the embedded
get_security_scheme on a block whose first key is "displayName" gives that
error, positioned at the key scalar. -/
theorem C3_security_scheme_display_name_rejected :
    get_security_scheme
      [(⟨1, 1, 1⟩, .value), (⟨2, 2, 2⟩, .blockMappingStart), (⟨3, 3, 3⟩, .key),
       (⟨4, 4, 4⟩, .scalar "displayName")]
      = .err (get_error (.unexpectedKeyRoot "displayName" .documentRoot)
          (some ⟨4, 4, 4⟩)) := by
  simp [get_security_scheme, expect, get_token_def, PResult.bind,
    get_security_scheme_loop, get_error]

/-- Claim C4, counterexample.  The claim says a successful parse returns a
non-empty title.  The root loop checks only Option::is_none, so an
explicitly empty title scalar is accepted: this input parses successfully
with title equal to the empty string. -/
theorem C4_empty_title_accepted :
    parse_root
      [(⟨1, 1, 1⟩, .streamStart), (⟨2, 2, 2⟩, .blockMappingStart), (⟨3, 3, 3⟩, .key),
       (⟨4, 4, 4⟩, .scalar "title"), (⟨5, 5, 5⟩, .value), (⟨6, 6, 6⟩, .scalar ""),
       (⟨7, 7, 7⟩, .blockEnd)]
      = .ok ⟨"", none, none, none, none, none, none, none⟩ := by
  simp [parse_root, parse_root_loop, expect, get_single_value, get_scalar_value,
    get_token_def, PResult.bind]

/-- Claim C4, amended.  For every input on which parse_root succeeds, a
"title" key was observed in the token stream (the required-field check is
presence, not non-emptiness: that title string may be empty). -/
theorem C4_title_key_observed {ts : List Tok} {r : Raml}
    (h : parse_root ts = .ok r) : ∃ m, (m, TokenType.scalar "title") ∈ ts :=
  parse_root_title_mem h

/-- Claim C4, witness for the amended theorem at a concrete input. -/
theorem C4_title_key_observed_witness :
    ∃ m, (m, TokenType.scalar "title") ∈
      ([(⟨1, 1, 1⟩, .streamStart), (⟨2, 2, 2⟩, .blockMappingStart),
        (⟨3, 3, 3⟩, .key), (⟨4, 4, 4⟩, .scalar "title"),
        (⟨5, 5, 5⟩, .value), (⟨6, 6, 6⟩, .scalar "Some API"),
        (⟨7, 7, 7⟩, .blockEnd)] : List Tok) :=
  @C4_title_key_observed
    [(⟨1, 1, 1⟩, .streamStart), (⟨2, 2, 2⟩, .blockMappingStart),
     (⟨3, 3, 3⟩, .key), (⟨4, 4, 4⟩, .scalar "title"),
     (⟨5, 5, 5⟩, .value), (⟨6, 6, 6⟩, .scalar "Some API"),
     (⟨7, 7, 7⟩, .blockEnd)]
    ⟨"Some API", none, none, none, none, none, none, none⟩
    (by simp [parse_root, parse_root_loop, expect, get_single_value,
      get_scalar_value, get_token_def, PResult.bind])

/-- Claim C5.  The claim says a lexical scan failure while pulling a token
is surfaced as an "invalid document" error wrapping the tokenizer message.
The source calls scanner.next().unwrap() (parser.rs line 148, marked
"todo error handling"), which panics when the scanner stops: with a valid
marker line but a tokenizer that yields nothing, the parse is fatal, not
an error value. -/
theorem C5_scan_error_panics :
    parse_raml_string "#%RAML 1.0" [] = .fatal := by
  simp [parse_raml_string, error_if_incorrect_raml_comment, first_line,
    trim_string, parse_root, expect, PResult.bind]

/-- Claim C6.  For every source text whose first line, trimmed, differs
from the literal marker, parse fails with MissingRamlVersion carrying no
position, for every token stream the tokenizer could yield (the check is
purely textual and precedes tokenization). -/
theorem C6_missing_version_marker :
    ∀ (source : String) (ts : List Tok),
      trim_string (first_line source) ≠ "#%RAML 1.0" →
      parse_raml_string source ts = .err (get_error .missingRamlVersion none) := by
  intro source ts h
  simp [parse_raml_string, error_if_incorrect_raml_comment, h]

/-- Claim C6, witness at a concrete input. -/
theorem C6_missing_version_marker_witness :
    parse_raml_string "title: Some API" [(⟨0, 0, 0⟩, .streamStart)] =
      .err (get_error .missingRamlVersion none) :=
  C6_missing_version_marker "title: Some API" [(⟨0, 0, 0⟩, .streamStart)] (by decide)

/-- Claim C7.  On a protocols value given as a flow sequence of scalars:
an empty sequence fails with MissingProtocols; a non-empty sequence whose
elements all lowercase to http or https maps case-insensitively and
order-preservingly onto the Protocol enumeration; a sequence with an
invalid element (the first such) fails with UnexpectedProtocol positioned
at that element's scalar marker. -/
theorem C7_protocol_parsing :
    ∀ (m0 m1 m2 : Marker) (ps : List (Marker × String)) (rest : List Tok),
      (ps = [] →
        get_protocols ((m0, TokenType.value) :: (m1, TokenType.flowSequenceStart) ::
            (ps.map fun q => (q.1, TokenType.scalar q.2)) ++
            (m2, TokenType.flowSequenceEnd) :: rest)
          = .err (get_error .missingProtocols none))
      ∧ (ps ≠ [] →
          (∀ q ∈ ps, to_lowercase q.2 = "http" ∨ to_lowercase q.2 = "https") →
          get_protocols ((m0, TokenType.value) :: (m1, TokenType.flowSequenceStart) ::
              (ps.map fun q => (q.1, TokenType.scalar q.2)) ++
              (m2, TokenType.flowSequenceEnd) :: rest)
            = .ok (ps.map fun q =>
                if to_lowercase q.2 = "http" then Protocol.http else Protocol.https,
                rest))
      ∧ (∀ (pre : List (Marker × String)) (q : Marker × String)
            (post : List (Marker × String)),
          ps = pre ++ q :: post →
          (∀ x ∈ pre, to_lowercase x.2 = "http" ∨ to_lowercase x.2 = "https") →
          to_lowercase q.2 ≠ "http" → to_lowercase q.2 ≠ "https" →
          get_protocols ((m0, TokenType.value) :: (m1, TokenType.flowSequenceStart) ::
              (ps.map fun q => (q.1, TokenType.scalar q.2)) ++
              (m2, TokenType.flowSequenceEnd) :: rest)
            = .err (get_error .unexpectedProtocol (some q.1))) := by
  intro m0 m1 m2 ps rest
  refine ⟨?_, ?_, ?_⟩
  · intro hps
    subst hps
    simp [get_protocols, get_multiple_values, expect, get_token_def,
      PResult.bind, get_flow_sequence]
  · intro hne hval
    have hfs := get_flow_sequence_scalars ps m2 rest
    have hv : ∀ e ∈ ps.map fun q => FlowSequenceEntry.mk q.2 q.1,
        to_lowercase e.value = "http" ∨ to_lowercase e.value = "https" := by
      intro e he
      simp only [List.mem_map] at he
      obtain ⟨q, hq, rfl⟩ := he
      exact hval q hq
    have hpv := protocols_of_entries_valid _ hv
    simp [get_protocols, get_multiple_values, expect, get_token_def,
      PResult.bind, hfs, hpv, List.isEmpty_iff, hne, List.map_map,
      Function.comp]
  · intro pre q post hsplit hpre hq1 hq2
    subst hsplit
    have hfs := get_flow_sequence_scalars (pre ++ q :: post) m2 rest
    have hv : ∀ e ∈ pre.map fun p => FlowSequenceEntry.mk p.2 p.1,
        to_lowercase e.value = "http" ∨ to_lowercase e.value = "https" := by
      intro e he
      simp only [List.mem_map] at he
      obtain ⟨p, hp, rfl⟩ := he
      exact hpre p hp
    have hpv := protocols_of_entries_first_invalid
      (pre.map fun p => FlowSequenceEntry.mk p.2 p.1)
      (FlowSequenceEntry.mk q.2 q.1)
      (post.map fun p => FlowSequenceEntry.mk p.2 p.1) hv hq1 hq2
    simp only [List.map_append, List.map_cons, List.append_assoc,
      List.cons_append] at hfs
    simp [get_protocols, get_multiple_values, expect, get_token_def,
      PResult.bind, hfs, hpv, List.isEmpty_iff]

/-- Claim C7, witness: the spec's three examples, with flow-entry
separators as the tokenizer yields them. -/
theorem C7_protocol_parsing_witness :
    get_protocols [(⟨0, 0, 0⟩, .value), (⟨1, 1, 1⟩, .flowSequenceStart),
        (⟨2, 2, 2⟩, .flowSequenceEnd)]
      = .err (get_error .missingProtocols none) ∧
    get_protocols [(⟨0, 0, 0⟩, .value), (⟨1, 1, 1⟩, .flowSequenceStart),
        (⟨2, 2, 2⟩, .scalar "http"), (⟨3, 3, 3⟩, .flowEntry),
        (⟨4, 4, 4⟩, .scalar "HTTPS"), (⟨5, 5, 5⟩, .flowSequenceEnd)]
      = .ok ([Protocol.http, Protocol.https], []) ∧
    get_protocols [(⟨0, 0, 0⟩, .value), (⟨1, 1, 1⟩, .flowSequenceStart),
        (⟨2, 2, 2⟩, .scalar "ftp"), (⟨3, 3, 3⟩, .flowSequenceEnd)]
      = .err (get_error .unexpectedProtocol (some ⟨2, 2, 2⟩)) := by
  refine ⟨?_, ?_, ?_⟩
  · exact (C7_protocol_parsing ⟨0, 0, 0⟩ ⟨1, 1, 1⟩ ⟨2, 2, 2⟩ [] []).1 rfl
  · have := (C7_protocol_parsing ⟨0, 0, 0⟩ ⟨1, 1, 1⟩ ⟨5, 5, 5⟩
        [(⟨2, 2, 2⟩, "http"), (⟨4, 4, 4⟩, "HTTPS")] []).2.1 (by decide) (by decide)
    simpa using this
  · have := (C7_protocol_parsing ⟨0, 0, 0⟩ ⟨1, 1, 1⟩ ⟨3, 3, 3⟩
        [(⟨2, 2, 2⟩, "ftp")] []).2.2 [] (⟨2, 2, 2⟩, "ftp") []
        rfl (by decide) (by decide) (by decide)
    simpa using this

/-- Claim C8.  A mediaType given as a bare scalar s and as the one-element
flow sequence containing s both yield the one-element media-types list
containing s, with the same remaining stream: scalar-or-sequence
normalization is shape-transparent. -/
theorem C8_media_type_shape_transparent :
    ∀ (s : String) (m0 m1 m2 m3 : Marker) (rest : List Tok),
      get_media_types ((m0, TokenType.value) :: (m1, TokenType.scalar s) :: rest)
        = .ok ([s], rest)
      ∧ get_media_types ((m0, TokenType.value) :: (m1, TokenType.flowSequenceStart) ::
          (m2, TokenType.scalar s) :: (m3, TokenType.flowSequenceEnd) :: rest)
        = .ok ([s], rest) := by
  intro s m0 m1 m2 m3 rest
  constructor <;>
    simp [get_media_types, get_single_or_multiple_values, expect, get_token_def,
      PResult.bind, get_flow_sequence]

/-- Claim C9.  Security-scheme type strings are matched case-insensitively
(the result depends only on the lowercased string) against the scheme-type
literals; a lowercased string with prefix "x-" becomes the escape variant
carrying that lowercase string; anything else is
InvalidSecuritySchemeType without a position. -/
theorem C9_security_scheme_type_from_str :
    (∀ s t : String, to_lowercase s = to_lowercase t →
      SecuritySchemeType.from_str s = SecuritySchemeType.from_str t)
    ∧ (∀ s : String, to_lowercase s = "oauth 1.0" →
        SecuritySchemeType.from_str s = .ok .oAuth1)
    ∧ (∀ s : String, to_lowercase s = "oauth 2.0" →
        SecuritySchemeType.from_str s = .ok .oAuth2)
    ∧ (∀ s : String, to_lowercase s = "basic authentication" →
        SecuritySchemeType.from_str s = .ok .basicAuthentication)
    ∧ (∀ s : String, to_lowercase s = "digest authentication" →
        SecuritySchemeType.from_str s = .ok .digestAuthentication)
    ∧ (∀ s : String, to_lowercase s = "pass through" →
        SecuritySchemeType.from_str s = .ok .passThrough)
    ∧ (∀ s : String, starts_with (to_lowercase s) "x-" = true →
        SecuritySchemeType.from_str s = .ok (.xOther (to_lowercase s)))
    ∧ (∀ s : String,
        to_lowercase s ∉ ["oauth 1.0", "oauth 2.0", "basic authentication",
          "digest authentication", "pass through"] →
        starts_with (to_lowercase s) "x-" = false →
        SecuritySchemeType.from_str s =
          .err (get_error .invalidSecuritySchemeType none)) := by
  refine ⟨?_, ?_, ?_, ?_, ?_, ?_, ?_, ?_⟩
  · intro s t h
    simp only [SecuritySchemeType.from_str, h]
  · intro s h
    simp only [SecuritySchemeType.from_str, h]
    simp
  · intro s h
    simp only [SecuritySchemeType.from_str, h]
    simp
  · intro s h
    simp only [SecuritySchemeType.from_str, h]
    simp
  · intro s h
    simp only [SecuritySchemeType.from_str, h]
    simp
  · intro s h
    simp only [SecuritySchemeType.from_str, h]
    simp
  · intro s hx
    have h1 : to_lowercase s ≠ "oauth 1.0" := by
      intro he; rw [he] at hx; simp [starts_with, List.isPrefixOf] at hx
    have h2 : to_lowercase s ≠ "oauth 2.0" := by
      intro he; rw [he] at hx; simp [starts_with, List.isPrefixOf] at hx
    have h3 : to_lowercase s ≠ "basic authentication" := by
      intro he; rw [he] at hx; simp [starts_with, List.isPrefixOf] at hx
    have h4 : to_lowercase s ≠ "digest authentication" := by
      intro he; rw [he] at hx; simp [starts_with, List.isPrefixOf] at hx
    have h5 : to_lowercase s ≠ "pass through" := by
      intro he; rw [he] at hx; simp [starts_with, List.isPrefixOf] at hx
    simp only [SecuritySchemeType.from_str, if_neg h1, if_neg h2, if_neg h3,
      if_neg h4, if_neg h5, hx, if_pos]
  · intro s hmem hx
    simp only [List.mem_cons, not_or] at hmem
    obtain ⟨h1, h2, h3, h4, h5, -⟩ := hmem
    simp only [SecuritySchemeType.from_str, if_neg h1, if_neg h2, if_neg h3,
      if_neg h4, if_neg h5, hx]
    simp

/-- Claim C9, witness: the spec's examples. -/
theorem C9_security_scheme_type_from_str_witness :
    SecuritySchemeType.from_str "OAuth 2.0" = .ok .oAuth2 ∧
    SecuritySchemeType.from_str "x-Custom" = .ok (.xOther (to_lowercase "x-Custom")) ∧
    SecuritySchemeType.from_str "Nope" =
      .err (get_error .invalidSecuritySchemeType none) :=
  ⟨C9_security_scheme_type_from_str.2.2.1 "OAuth 2.0" (by decide),
   C9_security_scheme_type_from_str.2.2.2.2.2.2.1 "x-Custom" (by decide),
   C9_security_scheme_type_from_str.2.2.2.2.2.2.2 "Nope" (by decide) (by decide)⟩

/-- Claim C10.  Within one block mapping, a key appearing twice keeps only
the last occurrence's value together with the last occurrence's Key-token
marker; no duplicate-key error is raised (the read succeeds). -/
theorem C10_duplicate_keys_last_write_wins :
    ∀ (k v1 v2 : String) (ma m1 ms1 mv1 mw1 m2 ms2 mv2 mw2 mb : Marker)
      (rest : List Tok),
      get_block_sequence
          ([(ma, TokenType.blockMappingStart), (m1, TokenType.key),
            (ms1, TokenType.scalar k), (mv1, TokenType.value),
            (mw1, TokenType.scalar v1), (m2, TokenType.key),
            (ms2, TokenType.scalar k), (mv2, TokenType.value),
            (mw2, TokenType.scalar v2), (mb, TokenType.blockEnd)] ++ rest)
        = .ok ([(k, ⟨v2, m2⟩)], rest) := by
  intro k v1 v2 ma m1 ms1 mv1 mw1 m2 ms2 mv2 mw2 mb rest
  simp [get_block_sequence, get_block_sequence_loop, get_key_value,
    get_scalar_value, expect, get_token_def, PResult.bind, insertEntry]
